import Mathlib

/-!
Shallow embedding of the `terraform_provider` inventory plugin
(`plugins/inventory/terraform_provider.py`): data model, resource
classification, inventory graph building and the orchestrating `parse` loop,
together with proofs of the spec's claims about them.
-/

set_option maxHeartbeats 1000000

/-- Modelled from the spec: a node of the decoded state document's resource
tree (`TerraformModuleResource` of the out-of-tree models module).  It carries
the `type` tag that drives classification and the typed attribute values that
`TerraformAnsibleProvider.from_json` extracts (`name`, `groups`, `children`,
`variables`). -/
structure TerraformModuleResource where
  type : String
  name : String
  groups : List String
  children : List String
  vars : List (String × String)
deriving DecidableEq, Repr

/-- A module of the state document: its own resources plus nested child
modules (`values.root_module.resources[]` / `child_modules[]`). -/
inductive TerraformRootModule where
  | mk (resources : List TerraformModuleResource)
       (child_modules : List TerraformRootModule)

/-- The `resources` field of a module. -/
def TerraformRootModule.resources : TerraformRootModule → List TerraformModuleResource
  | .mk rs _ => rs

/-- The `child_modules` field of a module. -/
def TerraformRootModule.child_modules : TerraformRootModule → List TerraformRootModule
  | .mk _ cs => cs

mutual
/-- Modelled from the spec: `flatten_resources` of the out-of-tree models
module — root resources first, then child modules in declared order,
depth-first. -/
def TerraformRootModule.flatten_resources : TerraformRootModule → List TerraformModuleResource
  | .mk rs cs => rs ++ flattenModuleList cs

/-- Depth-first flattening of a list of child modules, in declared order. -/
def flattenModuleList : List TerraformRootModule → List TerraformModuleResource
  | [] => []
  | m :: ms => m.flatten_resources ++ flattenModuleList ms
end

/-- The `values` wrapper of a decoded `terraform show -json` document. -/
structure TerraformShowValues where
  root_module : TerraformRootModule

/-- A decoded state document (`TerraformShow` of the models module). -/
structure TerraformShow where
  values : TerraformShowValues

/-- Modelled from the spec: the derived view `TerraformAnsibleProvider`
(name, groups, children, variables) extracted from a resource's values. -/
structure TerraformAnsibleProvider where
  name : String
  groups : List String
  children : List String
  vars : List (String × String)

/-- Modelled from the spec: `TerraformAnsibleProvider.from_json` projects the
typed attribute values out of a resource record. -/
def TerraformAnsibleProvider.from_json (r : TerraformModuleResource) : TerraformAnsibleProvider :=
  ⟨r.name, r.groups, r.children, r.vars⟩

/-- One call against the external inventory sink
(`add_group` / `add_child` / `add_host` / `add_host(..., group=...)` /
`set_variable`). -/
inductive InventoryOp where
  | add_group (name : String)
  | add_child (parent child : String)
  | add_host (name : String)
  | add_host_grouped (name group : String)
  | set_variable (entity key value : String)
deriving DecidableEq, Repr

/-- `InventoryModule._add_group` (lines 174-183): the sink calls issued for
one `ansible_group` resource, in source order. -/
def _add_group (resource : TerraformModuleResource) : List InventoryOp :=
  let attributes := TerraformAnsibleProvider.from_json resource
  [InventoryOp.add_group attributes.name]
    ++ attributes.children.flatMap
        (fun child => [InventoryOp.add_group child, InventoryOp.add_child attributes.name child])
    ++ attributes.vars.map (fun kv => InventoryOp.set_variable attributes.name kv.1 kv.2)

/-- `InventoryModule._add_host` (lines 185-194): the sink calls issued for
one `ansible_host` resource, in source order. -/
def _add_host (resource : TerraformModuleResource) : List InventoryOp :=
  let attributes := TerraformAnsibleProvider.from_json resource
  [InventoryOp.add_host attributes.name]
    ++ attributes.groups.flatMap
        (fun group => [InventoryOp.add_group group, InventoryOp.add_host_grouped attributes.name group])
    ++ attributes.vars.map (fun kv => InventoryOp.set_variable attributes.name kv.1 kv.2)

/-- The per-resource dispatch inside `create_inventory` (lines 207-211):
exactly the tags `"ansible_group"` and `"ansible_host"` are meaningful. -/
def classifyResource (resource : TerraformModuleResource) : List InventoryOp :=
  if resource.type == "ansible_group" then _add_group resource
  else if resource.type == "ansible_host" then _add_host resource
  else []

/-- `InventoryModule.create_inventory` (lines 196-211): the full sequence of
sink calls for a list of (possibly absent) state documents. -/
def create_inventory (state_content : List (Option TerraformShow))
    (search_child_modules : Bool) : List InventoryOp :=
  state_content.flatMap fun state =>
    match state with
    | none => []
    | some state =>
      let root_resources :=
        if !search_child_modules then state.values.root_module.resources
        else state.values.root_module.flatten_resources
      root_resources.flatMap classifyResource

/-- The workspace context returned by `terraform workspace list`
(`TerraformWorkspaceContext` of the models module): the current workspace and
the set of known workspaces. -/
structure TerraformWorkspaceContext where
  current : String
  all : List String
deriving DecidableEq, Repr

/-- Outcome of the external `terraform.workspace_list()` call for one project
path: a context, a `TerraformWarning`, or a hard `TerraformError` (which the
`parse` loop does not catch). -/
inductive ListOutcome where
  | ok (ctx : TerraformWorkspaceContext)
  | warning (msg : String)
  | hardError (msg : String)
deriving DecidableEq, Repr

/-- Outcome of the external `terraform.show(state_file)` call for one project
path: a decoded document (possibly absent), a `TerraformWarning`, or a hard
`TerraformError`. -/
inductive ShowOutcome where
  | ok (doc : Option TerraformShow)
  | warning (msg : String)
  | hardError (msg : String)

/-- The behaviour of the external tool at one project path: what
`workspace_list`, `workspace select` and `show` would return there. -/
structure PathEnv where
  workspace_list : ListOutcome
  select_result : Option String
  show_state : ShowOutcome

/-- One external command issued by the `parse` loop, recorded in order. -/
inductive TfCommand where
  | list_workspaces (path : String)
  | select (path : String) (workspace : String)
  | show_state (path : String) (state_file : String)
deriving DecidableEq, Repr

/-- Outcome of processing one project path inside the `parse` loop
(lines 234-258): either a fatal exception with its message, or a decoded
state document to append; both record the external commands issued. -/
inductive PathStep where
  | fatal (cmds : List TfCommand) (msg : String)
  | okStep (cmds : List TfCommand) (doc : Option TerraformShow)

/-- The commands issued while processing one path. -/
def PathStep.cmds : PathStep → List TfCommand
  | .fatal cs _ => cs
  | .okStep cs _ => cs

/-- Whether the path was processed without a fatal exception. -/
def PathStep.isOk : PathStep → Bool
  | .fatal _ _ => false
  | .okStep _ _ => true

/-- The document appended for a successfully processed path. -/
def PathStep.doc : PathStep → Option TerraformShow
  | .fatal _ _ => none
  | .okStep _ d => d

/-- The workspace context the loop works with after the `try`/`except` at
lines 239-243: a `TerraformWarning` defaults to
`TerraformWorkspaceContext(current="default", all=[])`. -/
def effectiveCtx : ListOutcome → TerraformWorkspaceContext
  | .ok ctx => ctx
  | _ => { current := "default", all := [] }

/-- The part of the loop body after the workspace listing (lines 246-258):
validate the requested workspace against `ctx`, select it when it differs
from the current one, then retrieve the state — re-raising a retrieval
warning as a `TerraformError` (lines 255-258). -/
def processPathCore (workspace state_file path : String)
    (ctx : TerraformWorkspaceContext) (env : PathEnv) : PathStep :=
  if !(ctx.all.contains workspace) && workspace != ctx.current then
    .fatal [TfCommand.list_workspaces path]
      ("Workspace " ++ workspace ++ " does not exist in " ++ path)
  else
    let selCmds : List TfCommand :=
      if ctx.current != workspace then [TfCommand.select path workspace] else []
    match (if ctx.current != workspace then env.select_result else none) with
    | some m => .fatal (TfCommand.list_workspaces path :: selCmds) m
    | none =>
      let cmds := TfCommand.list_workspaces path :: selCmds
                    ++ [TfCommand.show_state path state_file]
      match env.show_state with
      | .ok doc => .okStep cmds doc
      | .warning m => .fatal cmds m
      | .hardError m => .fatal cmds m

/-- The body of the `for path in project_path` loop of `InventoryModule.parse`
(lines 234-258) for one path: list workspaces (defaulting on a warning, and
propagating a hard error), then validate / select / retrieve. -/
def processPath (workspace state_file path : String) (env : PathEnv) : PathStep :=
  match env.workspace_list with
  | .hardError m => .fatal [TfCommand.list_workspaces path] m
  | wl => processPathCore workspace state_file path (effectiveCtx wl) env

/-- The result of a `parse` run: silent completion, or a raised
`TerraformError` with its message. -/
inductive ParseResult where
  | ok
  | error (msg : String)
deriving DecidableEq, Repr

/-- State of the `parse` loop after it ends or raises: the result, the
commands issued, and the `state_content` list accumulated so far. -/
structure RunOutcome where
  result : ParseResult
  commands : List TfCommand
  state_content : List (Option TerraformShow)

/-- The `for path in project_path` loop of `parse` (lines 234-258), over the
configured paths paired with the external tool's behaviour at each. -/
def runPaths (workspace state_file : String) :
    List (String × PathEnv) → RunOutcome
  | [] => { result := ParseResult.ok, commands := [], state_content := [] }
  | (path, env) :: rest =>
    match processPath workspace state_file path env with
    | .fatal cs m => { result := ParseResult.error m, commands := cs, state_content := [] }
    | .okStep cs doc =>
      let r := runPaths workspace state_file rest
      { result := r.result, commands := cs ++ r.commands,
        state_content := doc :: r.state_content }

/-- A whole `parse` run seen from the outside: its result, the external
commands issued, each hand-off of accumulated documents to
`create_inventory`, and the inventory sink calls issued. -/
structure ParseRun where
  result : ParseResult
  commands : List TfCommand
  handoffs : List (List (Option TerraformShow))
  mutations : List InventoryOp

/-- `InventoryModule.parse` (lines 213-261) after option reading: run the
per-path loop, then — only when it completed and `state_content` is
non-empty (line 260) — hand the accumulated documents to `create_inventory`
exactly once. -/
def parse (workspace state_file : String) (search_child_modules : Bool)
    (paths : List (String × PathEnv)) : ParseRun :=
  let r := runPaths workspace state_file paths
  match r.result with
  | ParseResult.error m => { result := ParseResult.error m, commands := r.commands,
                             handoffs := [], mutations := [] }
  | ParseResult.ok =>
    if r.state_content.isEmpty then
      { result := ParseResult.ok, commands := r.commands, handoffs := [], mutations := [] }
    else
      { result := ParseResult.ok, commands := r.commands,
        handoffs := [r.state_content],
        mutations := create_inventory r.state_content search_child_modules }

/-- Line 220 of `parse`: the flag used when the configuration omits
`search_child_modules` — `cfg.get("search_child_modules", True)`. -/
def effective_search_child_modules (cfg_value : Option Bool) : Bool :=
  cfg_value.getD true

/-- The default documented for `search_child_modules` in the plugin's
`DOCUMENTATION` block (lines 42-47). -/
def documented_search_child_modules_default : Bool := false

/-- Insert-if-absent: the idempotent set-like insertion the sink contract
requires for groups, hosts, edges and memberships. -/
def addUnique {α : Type} [DecidableEq α] (l : List α) (a : α) : List α :=
  if a ∈ l then l else l ++ [a]

/-- Set a variable value, overwriting any previous value for the same
(entity, key) pair: last write wins. -/
def setVar (v : (String × String) → Option String) (ek : String × String)
    (val : String) : (String × String) → Option String :=
  fun q => if q = ek then some val else v q

/-- Modelled from the spec: the external inventory sink's state — groups,
hosts, parent→child edges, host→group memberships, and the variable map
keyed by (entity, key). -/
structure InventoryGraph where
  groups : List String
  hosts : List String
  child_edges : List (String × String)
  memberships : List (String × String)
  vars : (String × String) → Option String

/-- Modelled from the spec: the sink's idempotent reaction to one call
(`add_group`/`add_child`/`add_host`/`add_host(..., group=...)`/
`set_variable`). -/
def applyOp (g : InventoryGraph) : InventoryOp → InventoryGraph
  | .add_group n => { g with groups := addUnique g.groups n }
  | .add_child p c => { g with child_edges := addUnique g.child_edges (p, c) }
  | .add_host n => { g with hosts := addUnique g.hosts n }
  | .add_host_grouped n grp =>
      { g with hosts := addUnique g.hosts n,
               memberships := addUnique g.memberships (n, grp) }
  | .set_variable e k v => { g with vars := setVar g.vars (e, k) v }

/-- Apply a whole sequence of sink calls, in order. -/
def applyOps (ops : List InventoryOp) (g : InventoryGraph) : InventoryGraph :=
  ops.foldl applyOp g

/-- The empty inventory graph. -/
def emptyInventoryGraph : InventoryGraph :=
  { groups := [], hosts := [], child_edges := [], memberships := [],
    vars := fun _ => none }

/-- Walk a call sequence carrying the set of groups created so far; `true`
iff every `add_host(name, group=g)` call finds `g` already created by an
earlier `add_group(g)` call. -/
def memberSafeAux (seen : List String) : List InventoryOp → Bool
  | [] => true
  | InventoryOp.add_group n :: rest => memberSafeAux (n :: seen) rest
  | InventoryOp.add_host_grouped _ g :: rest => seen.contains g && memberSafeAux seen rest
  | _ :: rest => memberSafeAux seen rest

/-- No dangling membership: every host-to-group membership call is preceded
by a creation call for that group. -/
def memberSafe (ops : List InventoryOp) : Bool :=
  memberSafeAux [] ops

/-! ### Sample inputs used by concrete witnesses and counterexamples -/

/-- A host resource `h1` in group `g1`. -/
def sample_host : TerraformModuleResource :=
  { type := "ansible_host", name := "h1", groups := ["g1"], children := [],
    vars := [("host_hello", "from host!")] }

/-- A resource whose type tag is neither `ansible_group` nor `ansible_host`. -/
def sample_unrelated : TerraformModuleResource :=
  { type := "unrelated_resource", name := "x", groups := [], children := [], vars := [] }

/-- A state document holding an unrelated resource next to host `h1`. -/
def mixedDoc : TerraformShow :=
  ⟨⟨.mk [sample_unrelated, sample_host] []⟩⟩

/-- A state document whose root module has zero resources while a child
module holds the host resource `db1`. -/
def childOnlyDoc : TerraformShow :=
  ⟨⟨.mk [] [.mk [{ type := "ansible_host", name := "db1", groups := [], children := [],
                   vars := [] }] []]⟩⟩

/-! ### Skipping absent state documents (C10) -/

/-- C10: absent (`None`) entries of `state_content` contribute no inventory
calls: the call sequence equals that of the same list with the absent
entries removed (`state is None → continue`, lines 200-201). -/
theorem create_inventory_skips_none :
    ∀ (states : List (Option TerraformShow)) (flag : Bool),
      create_inventory states flag = create_inventory (states.reduceOption.map some) flag := by
  intro states flag
  induction states with
  | nil => rfl
  | cons s rest ih =>
    cases s with
    | none =>
      simpa [create_inventory, List.reduceOption_cons_of_none] using ih
    | some d =>
      simp only [create_inventory, List.reduceOption_cons_of_some, List.map_cons,
        List.flatMap_cons] at ih ⊢
      exact congrArg _ ih

/-! ### Classification is driven solely by the type tag (C5) -/

/-- Whether a resource's type tag is one of the two recognized tags. -/
def recognizedResource (r : TerraformModuleResource) : Bool :=
  r.type == "ansible_group" || r.type == "ansible_host"

/-- A resource with an unrecognized type tag contributes no sink calls. -/
theorem classifyResource_unrecognized (r : TerraformModuleResource)
    (h : recognizedResource r = false) : classifyResource r = [] := by
  simp only [recognizedResource, Bool.or_eq_false_iff] at h
  simp [classifyResource, h.1, h.2]

/-- Dropping unrecognized resources from a resource list leaves the emitted
call sequence unchanged. -/
theorem flatMap_classify_filter (l : List TerraformModuleResource) :
    (l.filter recognizedResource).flatMap classifyResource = l.flatMap classifyResource := by
  induction l with
  | nil => rfl
  | cons r rest ih =>
    cases hr : recognizedResource r with
    | true => simp [List.filter_cons, hr, ih]
    | false => simp [List.filter_cons, hr, ih, classifyResource_unrecognized r hr]

mutual
/-- Keep only recognized resources, at every module of the tree. -/
def filterModule : TerraformRootModule → TerraformRootModule
  | .mk rs cs => .mk (rs.filter recognizedResource) (filterModules cs)

/-- `filterModule` over a list of child modules. -/
def filterModules : List TerraformRootModule → List TerraformRootModule
  | [] => []
  | m :: ms => filterModule m :: filterModules ms
end

mutual
/-- Flattening a filtered module yields the filtered flattening. -/
theorem flatten_filterModule (m : TerraformRootModule) :
    (filterModule m).flatten_resources = m.flatten_resources.filter recognizedResource := by
  cases m with
  | mk rs cs =>
    simp only [filterModule, TerraformRootModule.flatten_resources, List.filter_append]
    exact congrArg _ (flatten_filterModules cs)

/-- Flattening filtered child modules yields the filtered flattening. -/
theorem flatten_filterModules (ms : List TerraformRootModule) :
    flattenModuleList (filterModules ms) = (flattenModuleList ms).filter recognizedResource := by
  cases ms with
  | nil => rfl
  | cons m ms =>
    simp only [filterModules, flattenModuleList, List.filter_append]
    exact congrArg₂ _ (flatten_filterModule m) (flatten_filterModules ms)
end

/-- Keep only recognized resources in a (possibly absent) state document. -/
def filterShow (s : Option TerraformShow) : Option TerraformShow :=
  s.map fun d => ⟨⟨filterModule d.values.root_module⟩⟩

/-- Dropping unrecognized resources everywhere leaves `create_inventory`'s
call sequence unchanged. -/
theorem create_inventory_filterShow (states : List (Option TerraformShow)) (flag : Bool) :
    create_inventory (states.map filterShow) flag = create_inventory states flag := by
  induction states with
  | nil => rfl
  | cons s rest ih =>
    simp only [create_inventory, List.map_cons, List.flatMap_cons] at ih ⊢
    refine congrArg₂ _ ?_ ih
    cases s with
    | none => rfl
    | some d =>
      cases d with
      | mk v =>
        cases v with
        | mk m =>
          cases flag with
          | false =>
            simp only [filterShow, Option.map_some]
            cases m with
            | mk rs cs =>
              simpa [filterModule, TerraformRootModule.resources] using
                flatMap_classify_filter rs
          | true =>
            simp only [filterShow, Option.map_some, Bool.not_true, Bool.false_eq_true,
              if_false]
            calc (filterModule m).flatten_resources.flatMap classifyResource
                = (m.flatten_resources.filter recognizedResource).flatMap classifyResource := by
                  rw [flatten_filterModule]
              _ = m.flatten_resources.flatMap classifyResource :=
                  flatMap_classify_filter m.flatten_resources

/-! ### No dangling membership (C6) -/

/-- The groups created so far after a call sequence, on top of `seen`. -/
def collectGroups (seen : List String) : List InventoryOp → List String
  | [] => seen
  | InventoryOp.add_group n :: rest => collectGroups (n :: seen) rest
  | _ :: rest => collectGroups seen rest

/-- `memberSafeAux` splits along an append. -/
theorem memberSafeAux_append (xs ys : List InventoryOp) :
    ∀ s, memberSafeAux s (xs ++ ys)
      = (memberSafeAux s xs && memberSafeAux (collectGroups s xs) ys) := by
  induction xs with
  | nil => intro s; simp [memberSafeAux, collectGroups]
  | cons op rest ih =>
    intro s
    cases op with
    | add_group n => simpa [memberSafeAux, collectGroups] using ih (n :: s)
    | add_host_grouped n g =>
      simp [memberSafeAux, collectGroups, ih s, Bool.and_assoc]
    | add_child p c => simpa [memberSafeAux, collectGroups] using ih s
    | add_host n => simpa [memberSafeAux, collectGroups] using ih s
    | set_variable e k v => simpa [memberSafeAux, collectGroups] using ih s

/-- A call sequence built by `flatMap` from blocks that are each safe for
every `seen` is safe for every `seen`. -/
theorem memberSafeAux_flatMap {α : Type} (f : α → List InventoryOp) (l : List α)
    (h : ∀ s x, x ∈ l → memberSafeAux s (f x) = true) :
    ∀ s, memberSafeAux s (l.flatMap f) = true := by
  induction l with
  | nil => intro s; rfl
  | cons a rest ih =>
    intro s
    rw [List.flatMap_cons, memberSafeAux_append]
    exact Bool.and_eq_true_iff.mpr
      ⟨h s a (List.mem_cons_self a rest),
       ih (fun s x hx => h s x (List.mem_cons_of_mem a hx)) _⟩

/-- Variable-setting calls are always membership-safe. -/
theorem memberSafeAux_vars (n : String) (vs : List (String × String)) :
    ∀ s, memberSafeAux s (vs.map fun kv => InventoryOp.set_variable n kv.1 kv.2) = true := by
  induction vs with
  | nil => intro s; rfl
  | cons kv rest ih => intro s; simpa [memberSafeAux] using ih s

/-- The child-group calls of `_add_group` followed by a safe tail are safe. -/
theorem memberSafeAux_group_children (n : String) (l : List String)
    (tail : List InventoryOp) (htail : ∀ s, memberSafeAux s tail = true) :
    ∀ s, memberSafeAux s
      (l.flatMap (fun c => [InventoryOp.add_group c, InventoryOp.add_child n c]) ++ tail)
        = true := by
  induction l with
  | nil => intro s; simpa using htail s
  | cons c rest ih => intro s; simpa [memberSafeAux] using ih (c :: s)

/-- The group-membership calls of `_add_host` followed by a safe tail are
safe: each membership call is immediately preceded by its `add_group`. -/
theorem memberSafeAux_host_groups (n : String) (l : List String)
    (tail : List InventoryOp) (htail : ∀ s, memberSafeAux s tail = true) :
    ∀ s, memberSafeAux s
      (l.flatMap (fun g => [InventoryOp.add_group g, InventoryOp.add_host_grouped n g]) ++ tail)
        = true := by
  induction l with
  | nil => intro s; simpa using htail s
  | cons g rest ih =>
    intro s
    simp only [List.flatMap_cons, List.cons_append, List.append_assoc, memberSafeAux]
    have hg : (g :: s).contains g = true := by simp [List.contains_cons]
    simpa [memberSafeAux, hg] using ih (g :: s)

/-- The calls issued for one `ansible_group` resource are membership-safe. -/
theorem memberSafeAux_add_group_block (r : TerraformModuleResource) :
    ∀ s, memberSafeAux s (_add_group r) = true := by
  intro s
  simp only [_add_group, List.cons_append, List.nil_append, memberSafeAux]
  exact memberSafeAux_group_children _ _ _ (memberSafeAux_vars _ _) _

/-- The calls issued for one `ansible_host` resource are membership-safe. -/
theorem memberSafeAux_add_host_block (r : TerraformModuleResource) :
    ∀ s, memberSafeAux s (_add_host r) = true := by
  intro s
  simp only [_add_host, List.cons_append, List.nil_append, memberSafeAux]
  exact memberSafeAux_host_groups _ _ _ (memberSafeAux_vars _ _) _

/-- The calls issued for any single resource are membership-safe. -/
theorem memberSafeAux_classify (r : TerraformModuleResource) :
    ∀ s, memberSafeAux s (classifyResource r) = true := by
  intro s
  unfold classifyResource
  split
  · exact memberSafeAux_add_group_block r s
  · split
    · exact memberSafeAux_add_host_block r s
    · rfl

/-! ### Idempotence of the graph building calls (C7) -/

/-- Inserting a present element changes nothing. -/
theorem addUnique_of_mem {α : Type} [DecidableEq α] {l : List α} {a : α}
    (h : a ∈ l) : addUnique l a = l := by
  simp [addUnique, h]

/-- `addUnique` never loses elements. -/
theorem mem_addUnique_of_mem {α : Type} [DecidableEq α] {l : List α} {a : α} (b : α)
    (h : a ∈ l) : a ∈ addUnique l b := by
  unfold addUnique
  split
  · exact h
  · exact List.mem_append_left _ h

/-- The inserted element is present afterwards. -/
theorem mem_addUnique_self {α : Type} [DecidableEq α] (l : List α) (a : α) :
    a ∈ addUnique l a := by
  unfold addUnique
  split
  · assumption
  · exact List.mem_append_right _ (List.mem_singleton.mpr rfl)

/-- Folding `addUnique` never loses elements of the accumulator. -/
theorem mem_foldl_addUnique_left {α : Type} [DecidableEq α] (L : List α) :
    ∀ (l : List α) (a : α), a ∈ l → a ∈ List.foldl addUnique l L := by
  induction L with
  | nil => intro l a h; exact h
  | cons b L ih => intro l a h; exact ih _ a (mem_addUnique_of_mem b h)

/-- Folding `addUnique` inserts every element of the folded list. -/
theorem mem_foldl_addUnique_right {α : Type} [DecidableEq α] (L : List α) :
    ∀ (l : List α) (a : α), a ∈ L → a ∈ List.foldl addUnique l L := by
  induction L with
  | nil => intro l a h; cases h
  | cons b L ih =>
    intro l a h
    rcases List.mem_cons.mp h with h | h
    · subst h; exact mem_foldl_addUnique_left L _ a (mem_addUnique_self l a)
    · exact ih _ a h

/-- Folding `addUnique` over already-present elements changes nothing. -/
theorem foldl_addUnique_subset {α : Type} [DecidableEq α] (L : List α) :
    ∀ (l : List α), (∀ a ∈ L, a ∈ l) → List.foldl addUnique l L = l := by
  induction L with
  | nil => intro l _; rfl
  | cons b L ih =>
    intro l h
    have hb : b ∈ l := h b (List.mem_cons_self b L)
    rw [List.foldl_cons, addUnique_of_mem hb]
    exact ih l (fun a ha => h a (List.mem_cons_of_mem b ha))

/-- Re-folding the same insertions is a no-op. -/
theorem foldl_addUnique_idem {α : Type} [DecidableEq α] (L : List α) (l : List α) :
    List.foldl addUnique (List.foldl addUnique l L) L = List.foldl addUnique l L :=
  foldl_addUnique_subset L _ (fun a ha => mem_foldl_addUnique_right L l a ha)

/-- Apply a list of variable writes, in order. -/
def applyWrites (v : (String × String) → Option String)
    (W : List ((String × String) × String)) : (String × String) → Option String :=
  W.foldl (fun v w => setVar v w.1 w.2) v

/-- The last value written to a key by a write list, folded on top of `a`. -/
def lastWriteFrom (a : Option String) (W : List ((String × String) × String))
    (q : String × String) : Option String :=
  W.foldl (fun acc w => if q = w.1 then some w.2 else acc) a

/-- Peeling the initial accumulator out of `lastWriteFrom`. -/
theorem lastWriteFrom_eq (W : List ((String × String) × String)) (q : String × String) :
    ∀ a : Option String, lastWriteFrom a W q
      = match lastWriteFrom none W q with
        | some x => some x
        | none => a := by
  induction W with
  | nil => intro a; rfl
  | cons w W ih =>
    intro a
    show lastWriteFrom (if q = w.1 then some w.2 else a) W q = _
    rw [ih (if q = w.1 then some w.2 else a)]
    show _ = (match lastWriteFrom (if q = w.1 then some w.2 else none) W q with
              | some x => some x
              | none => a)
    rw [ih (if q = w.1 then some w.2 else none)]
    cases lastWriteFrom none W q with
    | some x => rfl
    | none => by_cases hq : q = w.1 <;> simp [hq]

/-- Pointwise value of a write fold: the last write if any, else the input. -/
theorem applyWrites_apply (W : List ((String × String) × String)) (q : String × String) :
    ∀ v, applyWrites v W q
      = match lastWriteFrom none W q with
        | some x => some x
        | none => v q := by
  induction W with
  | nil => intro v; rfl
  | cons w W ih =>
    intro v
    show applyWrites (setVar v w.1 w.2) W q = _
    rw [ih (setVar v w.1 w.2)]
    show _ = (match lastWriteFrom (if q = w.1 then some w.2 else none) W q with
              | some x => some x
              | none => v q)
    rw [lastWriteFrom_eq W q (if q = w.1 then some w.2 else none)]
    cases lastWriteFrom none W q with
    | some x => rfl
    | none => by_cases hq : q = w.1 <;> simp [setVar, hq]

/-- Re-applying the same writes is a no-op. -/
theorem applyWrites_idem (W : List ((String × String) × String))
    (v : (String × String) → Option String) :
    applyWrites (applyWrites v W) W = applyWrites v W := by
  funext q
  rw [applyWrites_apply W q, applyWrites_apply W q v]
  cases lastWriteFrom none W q with
  | some x => rfl
  | none => rfl

/-- The groups created by one sink call. -/
def opGroups : InventoryOp → List String
  | .add_group n => [n]
  | _ => []

/-- The hosts created by one sink call. -/
def opHosts : InventoryOp → List String
  | .add_host n => [n]
  | .add_host_grouped n _ => [n]
  | _ => []

/-- The parent→child edges added by one sink call. -/
def opEdges : InventoryOp → List (String × String)
  | .add_child p c => [(p, c)]
  | _ => []

/-- The memberships added by one sink call. -/
def opMembers : InventoryOp → List (String × String)
  | .add_host_grouped n g => [(n, g)]
  | _ => []

/-- The variable writes performed by one sink call. -/
def opWrites : InventoryOp → List ((String × String) × String)
  | .set_variable e k v => [((e, k), v)]
  | _ => []

/-- Closed form of `applyOps`: each graph component is the fold of the
insertions or writes the call sequence performs on it. -/
theorem applyOps_char (ops : List InventoryOp) :
    ∀ g : InventoryGraph, applyOps ops g =
      { groups := List.foldl addUnique g.groups (ops.flatMap opGroups),
        hosts := List.foldl addUnique g.hosts (ops.flatMap opHosts),
        child_edges := List.foldl addUnique g.child_edges (ops.flatMap opEdges),
        memberships := List.foldl addUnique g.memberships (ops.flatMap opMembers),
        vars := applyWrites g.vars (ops.flatMap opWrites) } := by
  induction ops with
  | nil => intro g; rfl
  | cons op rest ih =>
    intro g
    show applyOps rest (applyOp g op) = _
    rw [ih (applyOp g op)]
    cases op <;>
      simp [applyOp, opGroups, opHosts, opEdges, opMembers, opWrites, applyWrites,
        List.flatMap_cons]

/-- Re-applying any call sequence to its own result changes nothing. -/
theorem applyOps_idem (ops : List InventoryOp) (g : InventoryGraph) :
    applyOps ops (applyOps ops g) = applyOps ops g := by
  rw [applyOps_char ops g, applyOps_char ops]
  simp only [foldl_addUnique_idem, applyWrites_idem]

/-! ### Orchestrator lemmas (C1, C3, C4, C8, C9) -/

/-- The documents the loop appends, one per path, when every path succeeds. -/
def pathDocs (workspace state_file : String) (paths : List (String × PathEnv)) :
    List (Option TerraformShow) :=
  paths.map fun pe => (processPath workspace state_file pe.1 pe.2).doc

/-- The external commands issued across a list of paths. -/
def pathCmds (workspace state_file : String) (paths : List (String × PathEnv)) :
    List TfCommand :=
  paths.flatMap fun pe => (processPath workspace state_file pe.1 pe.2).cmds

/-- When every path processes without a fatal exception, the loop completes
with exactly the per-path documents accumulated in order. -/
theorem runPaths_all_ok (workspace state_file : String) :
    ∀ paths : List (String × PathEnv),
      (∀ pe ∈ paths, (processPath workspace state_file pe.1 pe.2).isOk = true) →
      runPaths workspace state_file paths =
        { result := ParseResult.ok,
          commands := pathCmds workspace state_file paths,
          state_content := pathDocs workspace state_file paths } := by
  intro paths
  induction paths with
  | nil => intro _; rfl
  | cons pe rest ih =>
    intro h
    have hok := h pe (List.mem_cons_self pe rest)
    cases hstep : processPath workspace state_file pe.1 pe.2 with
    | fatal cs m => rw [hstep] at hok; cases hok
    | okStep cs doc =>
      obtain ⟨path, env⟩ := pe
      simp only [runPaths, hstep]
      rw [ih (fun x hx => h x (List.mem_cons_of_mem _ hx))]
      simp [pathCmds, pathDocs, hstep, PathStep.cmds, PathStep.doc]

/-- If the loop completed, its accumulated `state_content` is exactly the
per-path document list. -/
theorem runPaths_ok_state (workspace state_file : String) :
    ∀ paths : List (String × PathEnv),
      (runPaths workspace state_file paths).result = ParseResult.ok →
      (runPaths workspace state_file paths).state_content
        = pathDocs workspace state_file paths := by
  intro paths
  induction paths with
  | nil => intro _; rfl
  | cons pe rest ih =>
    intro h
    cases hstep : processPath workspace state_file pe.1 pe.2 with
    | fatal cs m =>
      exfalso
      obtain ⟨path, env⟩ := pe
      simp only [runPaths, hstep] at h
      cases h
    | okStep cs doc =>
      obtain ⟨path, env⟩ := pe
      simp only [runPaths, hstep] at h ⊢
      rw [ih h]
      simp [pathDocs, hstep, PathStep.doc]

/-- A fatal exception at one path, after successfully processed paths, ends
the whole loop with that exception: nothing past the failing path runs. -/
theorem runPaths_append_fatal (workspace state_file path : String) (env : PathEnv)
    (cs : List TfCommand) (m : String) (rest : List (String × PathEnv)) :
    ∀ pre : List (String × PathEnv),
      (∀ pe ∈ pre, (processPath workspace state_file pe.1 pe.2).isOk = true) →
      processPath workspace state_file path env = PathStep.fatal cs m →
      (runPaths workspace state_file (pre ++ (path, env) :: rest)).result
          = ParseResult.error m ∧
      (runPaths workspace state_file (pre ++ (path, env) :: rest)).commands
          = pathCmds workspace state_file pre ++ cs := by
  intro pre
  induction pre with
  | nil =>
    intro _ hstep
    simp [runPaths, hstep, pathCmds]
  | cons pe pre ih =>
    intro h hstep
    have hok := h pe (List.mem_cons_self pe pre)
    cases hpe : processPath workspace state_file pe.1 pe.2 with
    | fatal cs0 m0 => rw [hpe] at hok; cases hok
    | okStep cs0 doc =>
      obtain ⟨p, e⟩ := pe
      have hrec := ih (fun x hx => h x (List.mem_cons_of_mem _ hx)) hstep
      simp only [List.cons_append, runPaths, hpe]
      exact ⟨hrec.1, by simp [pathCmds, hpe, PathStep.cmds, hrec.2]⟩

/-- `parse` raises exactly when the loop raised. -/
theorem parse_result_eq (workspace state_file : String) (flag : Bool)
    (paths : List (String × PathEnv)) :
    (parse workspace state_file flag paths).result
      = (runPaths workspace state_file paths).result := by
  simp only [parse]
  cases (runPaths workspace state_file paths).result with
  | ok =>
    split
    · simp_all
    · split <;> rfl
  | error m => rfl

/-- When the loop raised, `parse` issues no sink call and no hand-off, and
reports the loop's commands unchanged. -/
theorem parse_of_error (workspace state_file : String) (flag : Bool)
    (paths : List (String × PathEnv)) (m : String)
    (h : (runPaths workspace state_file paths).result = ParseResult.error m) :
    parse workspace state_file flag paths
      = { result := ParseResult.error m,
          commands := (runPaths workspace state_file paths).commands,
          handoffs := [], mutations := [] } := by
  simp only [parse]
  rw [h]

/-- The loop's workspace-validation test (line 246) on a path's effective
context; `false` when the listing raised a hard error (the test is never
reached). -/
def failsValidation (workspace : String) (env : PathEnv) : Bool :=
  match env.workspace_list with
  | ListOutcome.hardError _ => false
  | wl =>
    let ctx := effectiveCtx wl
    !(ctx.all.contains workspace) && workspace != ctx.current

/-- A failed validation raises `TerraformError` naming the workspace and the
path, before any select or state retrieval at that path. -/
theorem processPath_validation_fatal (workspace state_file path : String) (env : PathEnv)
    (h : failsValidation workspace env = true) :
    processPath workspace state_file path env
      = PathStep.fatal [TfCommand.list_workspaces path]
          ("Workspace " ++ workspace ++ " does not exist in " ++ path) := by
  have hcore : ∀ ctx : TerraformWorkspaceContext,
      (!(ctx.all.contains workspace) && workspace != ctx.current) = true →
      processPathCore workspace state_file path ctx env
        = PathStep.fatal [TfCommand.list_workspaces path]
            ("Workspace " ++ workspace ++ " does not exist in " ++ path) := by
    intro ctx hc
    unfold processPathCore
    rw [if_pos hc]
  cases hwl : env.workspace_list with
  | hardError m => simp [failsValidation, hwl] at h
  | ok ctx =>
    simp only [failsValidation, hwl] at h
    simp only [processPath, hwl]
    exact hcore _ h
  | warning m =>
    simp only [failsValidation, hwl] at h
    simp only [processPath, hwl]
    exact hcore _ h

/-- Whether the path's processing reaches the state-retrieval call: the
listing raised no hard error, validation passes, and any needed select
succeeds. -/
def reachesShow (workspace : String) (env : PathEnv) : Bool :=
  match env.workspace_list with
  | ListOutcome.hardError _ => false
  | wl =>
    let ctx := effectiveCtx wl
    !(!(ctx.all.contains workspace) && workspace != ctx.current)
      && (if ctx.current != workspace then env.select_result else none).isNone

/-- Core form of the loop body when validation passes, the select (if any)
succeeds, and `show` reports a warning: the warning is re-raised as a fatal
`TerraformError` with the same message (lines 255-258). -/
theorem processPathCore_show_warning (workspace state_file path : String)
    (ctx : TerraformWorkspaceContext) (env : PathEnv) (m : String)
    (hv : (!(ctx.all.contains workspace) && workspace != ctx.current) = false)
    (hsel : (if ctx.current != workspace then env.select_result else none) = none)
    (h2 : env.show_state = ShowOutcome.warning m) :
    processPathCore workspace state_file path ctx env
      = PathStep.fatal
          (TfCommand.list_workspaces path ::
            (if ctx.current != workspace then [TfCommand.select path workspace] else [])
            ++ [TfCommand.show_state path state_file]) m := by
  simp only [processPathCore, hv, hsel, h2]
  rfl

/-- A state-retrieval warning at a reached path makes that path fatal. -/
theorem processPath_show_warning (workspace state_file path : String) (env : PathEnv)
    (m : String) (h1 : reachesShow workspace env = true)
    (h2 : env.show_state = ShowOutcome.warning m) :
    ∃ cs, processPath workspace state_file path env = PathStep.fatal cs m := by
  cases hwl : env.workspace_list with
  | hardError m0 => simp [reachesShow, hwl] at h1
  | ok ctx =>
    simp only [reachesShow, hwl, Bool.and_eq_true, Bool.not_eq_true',
      Option.isNone_iff_eq_none] at h1
    exact ⟨_, by
      simp only [processPath, hwl]
      exact processPathCore_show_warning workspace state_file path ctx env m h1.1 h1.2 h2⟩
  | warning m0 =>
    simp only [reachesShow, hwl, Bool.and_eq_true, Bool.not_eq_true',
      Option.isNone_iff_eq_none] at h1
    exact ⟨_, by
      simp only [processPath, hwl]
      exact processPathCore_show_warning workspace state_file path _ env m h1.1 h1.2 h2⟩

/-- Replace a warning-level workspace listing by a successful listing that
returns the default context (`current="default"`, no named workspaces). -/
def defaultizeListing : ListOutcome → ListOutcome
  | ListOutcome.warning _ => ListOutcome.ok { current := "default", all := [] }
  | o => o

/-- Apply `defaultizeListing` to one configured path. -/
def defaultizePath (pe : String × PathEnv) : String × PathEnv :=
  (pe.1, { pe.2 with workspace_list := defaultizeListing pe.2.workspace_list })

/-- The loop body cannot tell a warning-level listing from a successful
listing of the default context. -/
theorem processPath_defaultize (workspace state_file path : String) (env : PathEnv) :
    processPath workspace state_file path
        { env with workspace_list := defaultizeListing env.workspace_list }
      = processPath workspace state_file path env := by
  obtain ⟨wl, sel, shw⟩ := env
  cases wl <;> rfl

/-- The whole loop cannot tell warning-level listings from successful
default-context listings. -/
theorem runPaths_defaultize (workspace state_file : String) :
    ∀ paths : List (String × PathEnv),
      runPaths workspace state_file (paths.map defaultizePath)
        = runPaths workspace state_file paths := by
  intro paths
  induction paths with
  | nil => rfl
  | cons pe rest ih =>
    obtain ⟨path, env⟩ := pe
    simp only [List.map_cons, defaultizePath, runPaths, processPath_defaultize, ih]

/-- Whether a command is a `workspace select`. -/
def isSelectCmd : TfCommand → Bool
  | TfCommand.select _ _ => true
  | _ => false

/-- Shape of the commands one path issues, for each way its processing can
go: listing only on validation failure; listing and select on a failed
select; listing, select (when needed) and show otherwise. -/
theorem processPathCore_cmds (workspace state_file path : String)
    (ctx : TerraformWorkspaceContext) (env : PathEnv) :
    (processPathCore workspace state_file path ctx env).cmds
      = if !(ctx.all.contains workspace) && workspace != ctx.current then
          [TfCommand.list_workspaces path]
        else
          TfCommand.list_workspaces path ::
            (if ctx.current != workspace then [TfCommand.select path workspace] else [])
            ++ (if (if ctx.current != workspace then env.select_result else none).isNone
                then [TfCommand.show_state path state_file] else []) := by
  unfold processPathCore
  split
  · rfl
  · cases hcur : (ctx.current != workspace) with
    | true =>
      cases hsel : env.select_result with
      | some m => simp [PathStep.cmds, hcur, hsel]
      | none => cases env.show_state <;> simp [PathStep.cmds, hcur, hsel]
    | false =>
      cases env.show_state <;> simp [PathStep.cmds, hcur]

/-- The select commands one path issues: exactly one, when validation passes
and the requested workspace differs from the current one. -/
theorem processPathCore_selects (workspace state_file path : String)
    (ctx : TerraformWorkspaceContext) (env : PathEnv) :
    (processPathCore workspace state_file path ctx env).cmds.filter isSelectCmd
      = if (ctx.all.contains workspace || workspace == ctx.current)
            && ctx.current != workspace
        then [TfCommand.select path workspace] else [] := by
  rw [processPathCore_cmds]
  by_cases hm : workspace = ctx.current
  · subst hm
    simp [isSelectCmd]
  · have h1 : (workspace == ctx.current) = false := beq_eq_false_iff_ne.mpr hm
    have h2 : (workspace != ctx.current) = true := bne_iff_ne.mpr hm
    have h3 : (ctx.current != workspace) = true := bne_iff_ne.mpr (Ne.symm hm)
    cases hc : ctx.all.contains workspace with
    | false => simp [hc, h1, h2, h3, isSelectCmd]
    | true =>
      cases hsel : env.select_result with
      | none => simp [hc, h1, h2, h3, hsel, isSelectCmd]
      | some m => simp [hc, h1, h2, h3, hsel, isSelectCmd]

/-! ### Concrete runs used by witnesses and the counterexample -/

/-- A path whose listing, validation and retrieval all succeed, producing
the document with host `h1`. -/
def envP1 : PathEnv :=
  { workspace_list := ListOutcome.ok ⟨"default", ["default"]⟩,
    select_result := none,
    show_state := ShowOutcome.ok (some mixedDoc) }

/-- A path whose state retrieval reports a warning-level condition. -/
def envWarnShow : PathEnv :=
  { workspace_list := ListOutcome.ok ⟨"default", ["default"]⟩,
    select_result := none,
    show_state := ShowOutcome.warning "state warn" }

/-- A path whose known workspaces are `dev` and `default` (with `default`
current), and whose retrieval would succeed. -/
def envBadWs : PathEnv :=
  { workspace_list := ListOutcome.ok ⟨"default", ["dev", "default"]⟩,
    select_result := none,
    show_state := ShowOutcome.ok (some mixedDoc) }

/-! ### The claims -/

/-- C1 (counterexample): the claim is false on the code.  With path `p1`
retrieving host `h1` fine and path `p2`'s state retrieval reporting a
recoverable warning, the run does not complete successfully with `p1`'s
resources kept — it raises and builds nothing (lines 255-258 re-raise the
warning as `TerraformError`). -/
theorem show_warning_claim_counterexample :
    ¬ ((parse "default" "" false [("p1", envP1), ("p2", envWarnShow)]).result
          = ParseResult.ok
        ∧ InventoryOp.add_host "h1"
            ∈ (parse "default" "" false [("p1", envP1), ("p2", envWarnShow)]).mutations) := by
  decide

/-- C1 (amended): for every run in which state retrieval for some reached
project path reports a recoverable (warning-level) condition, the run
aborts with a `TerraformError` carrying the warning's message, and no
inventory at all is built — no path's resources are added. -/
theorem parse_show_warning_aborts :
    ∀ (workspace state_file : String) (flag : Bool)
      (pre : List (String × PathEnv)) (path : String) (env : PathEnv)
      (rest : List (String × PathEnv)) (m : String),
      (∀ pe ∈ pre, (processPath workspace state_file pe.1 pe.2).isOk = true) →
      reachesShow workspace env = true →
      env.show_state = ShowOutcome.warning m →
      (parse workspace state_file flag (pre ++ (path, env) :: rest)).result
          = ParseResult.error m
        ∧ (parse workspace state_file flag (pre ++ (path, env) :: rest)).mutations = []
        ∧ (parse workspace state_file flag (pre ++ (path, env) :: rest)).handoffs = [] := by
  intro ws sf flag pre path env rest m hpre hreach hshow
  obtain ⟨cs, hstep⟩ := processPath_show_warning ws sf path env m hreach hshow
  have hrun := runPaths_append_fatal ws sf path env cs m rest pre hpre hstep
  rw [parse_of_error ws sf flag _ m hrun.1]
  exact ⟨rfl, rfl, rfl⟩

/-- Witness for the amended C1 at a concrete two-path run. -/
theorem parse_show_warning_aborts_witness :
    (parse "default" "" false [("p1", envP1), ("p2", envWarnShow)]).result
        = ParseResult.error "state warn"
      ∧ (parse "default" "" false [("p1", envP1), ("p2", envWarnShow)]).mutations = []
      ∧ (parse "default" "" false [("p1", envP1), ("p2", envWarnShow)]).handoffs = [] :=
  parse_show_warning_aborts "default" "" false [("p1", envP1)] "p2" envWarnShow []
    "state warn" (by decide) (by decide) rfl

/-- C2 (code bug): when the configuration omits `search_child_modules`,
line 220 defaults it to `True`, contradicting the plugin's own
`DOCUMENTATION` default of `false`: a host `db1` living only in a child
module IS included, whereas under the documented default it would not be. -/
theorem search_child_modules_default_bug :
    effective_search_child_modules none = true
      ∧ effective_search_child_modules none ≠ documented_search_child_modules_default
      ∧ InventoryOp.add_host "db1"
          ∈ create_inventory [some childOnlyDoc] (effective_search_child_modules none)
      ∧ InventoryOp.add_host "db1"
          ∉ create_inventory [some childOnlyDoc] documented_search_child_modules_default := by
  decide

/-- C3: a run that raises at any path issues no sink call and no hand-off;
a run that completes over at least one path hands the accumulated documents
to `create_inventory` exactly once, after all paths are processed. -/
theorem parse_no_partial_inventory :
    ∀ (workspace state_file : String) (flag : Bool) (paths : List (String × PathEnv)),
      ((parse workspace state_file flag paths).result ≠ ParseResult.ok →
        (parse workspace state_file flag paths).mutations = []
          ∧ (parse workspace state_file flag paths).handoffs = [])
      ∧ ((parse workspace state_file flag paths).result = ParseResult.ok → paths ≠ [] →
        (parse workspace state_file flag paths).handoffs
            = [pathDocs workspace state_file paths]
          ∧ (parse workspace state_file flag paths).mutations
              = create_inventory (pathDocs workspace state_file paths) flag) := by
  intro ws sf flag paths
  constructor
  · intro hne
    cases hres : (runPaths ws sf paths).result with
    | ok => exact absurd (by rw [parse_result_eq, hres]) hne
    | error m => rw [parse_of_error ws sf flag paths m hres]; exact ⟨rfl, rfl⟩
  · intro hok hpaths
    have hres : (runPaths ws sf paths).result = ParseResult.ok := by
      rw [← parse_result_eq ws sf flag paths]; exact hok
    have hstate := runPaths_ok_state ws sf paths hres
    have hne : (runPaths ws sf paths).state_content.isEmpty = false := by
      rw [hstate]
      cases paths with
      | nil => exact absurd rfl hpaths
      | cons a l => simp [pathDocs]
    simp only [parse]
    rw [hres, hne]
    simp only [Bool.false_eq_true, if_false]
    rw [hstate]
    exact ⟨rfl, rfl⟩

/-- Witness for C3: a failing run issues nothing; a completing one-path run
hands off exactly once. -/
theorem parse_no_partial_inventory_witness :
    (parse "staging" "" false [("p1", envBadWs)]).mutations = []
      ∧ (parse "staging" "" false [("p1", envBadWs)]).handoffs = []
      ∧ (parse "default" "" false [("p1", envP1)]).handoffs
          = [pathDocs "default" "" [("p1", envP1)]] :=
  ⟨((parse_no_partial_inventory "staging" "" false [("p1", envBadWs)]).1 (by decide)).1,
   ((parse_no_partial_inventory "staging" "" false [("p1", envBadWs)]).1 (by decide)).2,
   ((parse_no_partial_inventory "default" "" false [("p1", envP1)]).2 (by decide)
      (List.cons_ne_nil _ _)).1⟩

/-- C4: a project path whose effective workspace context has the requested
workspace neither current nor known makes the run raise a `TerraformError`
naming the workspace and the path, immediately: no select or retrieval at
that path, nothing at later paths, and no inventory is built. -/
theorem parse_unknown_workspace_error :
    ∀ (workspace state_file : String) (flag : Bool)
      (pre : List (String × PathEnv)) (path : String) (env : PathEnv)
      (rest : List (String × PathEnv)),
      (∀ pe ∈ pre, (processPath workspace state_file pe.1 pe.2).isOk = true) →
      failsValidation workspace env = true →
      (parse workspace state_file flag (pre ++ (path, env) :: rest)).result
          = ParseResult.error ("Workspace " ++ workspace ++ " does not exist in " ++ path)
        ∧ (parse workspace state_file flag (pre ++ (path, env) :: rest)).commands
            = pathCmds workspace state_file pre ++ [TfCommand.list_workspaces path]
        ∧ (parse workspace state_file flag (pre ++ (path, env) :: rest)).mutations = []
        ∧ (parse workspace state_file flag (pre ++ (path, env) :: rest)).handoffs = [] := by
  intro ws sf flag pre path env rest hpre hval
  have hstep := processPath_validation_fatal ws sf path env hval
  have hrun := runPaths_append_fatal ws sf path env _ _ rest pre hpre hstep
  rw [parse_of_error ws sf flag _ _ hrun.1]
  exact ⟨rfl, hrun.2, rfl, rfl⟩

/-- Witness for C4 at the spec's example: known workspaces `dev`/`default`,
requested `staging`. -/
theorem parse_unknown_workspace_error_witness :
    (parse "staging" "" false [("proj", envBadWs)]).result
        = ParseResult.error ("Workspace " ++ "staging" ++ " does not exist in " ++ "proj")
      ∧ (parse "staging" "" false [("proj", envBadWs)]).commands
          = pathCmds "staging" "" [] ++ [TfCommand.list_workspaces "proj"]
      ∧ (parse "staging" "" false [("proj", envBadWs)]).mutations = []
      ∧ (parse "staging" "" false [("proj", envBadWs)]).handoffs = [] :=
  parse_unknown_workspace_error "staging" "" false [] "proj" envBadWs []
    (fun pe h => absurd h (List.not_mem_nil pe)) (by decide)

/-- C5: classification is driven solely by the `type` tag — deleting every
resource whose tag is not `ansible_group`/`ansible_host` leaves the call
sequence unchanged (they are ignored without error), and a valid host
resource next to an unrecognized one is still added. -/
theorem classification_by_type_tag :
    (∀ (states : List (Option TerraformShow)) (flag : Bool),
        create_inventory (states.map filterShow) flag = create_inventory states flag)
      ∧ InventoryOp.add_host "h1" ∈ create_inventory [some mixedDoc] false :=
  ⟨create_inventory_filterShow, by decide⟩

/-- C6: in every call sequence `create_inventory` emits, each
`add_host(name, group=g)` call is preceded by an `add_group(g)` call — no
membership is ever established for a group not yet created. -/
theorem no_dangling_membership :
    ∀ (states : List (Option TerraformShow)) (flag : Bool),
      memberSafe (create_inventory states flag) = true := by
  intro states flag
  unfold memberSafe create_inventory
  refine memberSafeAux_flatMap _ states ?_ []
  intro s st _
  cases st with
  | none => rfl
  | some d =>
    exact memberSafeAux_flatMap _ _ (fun s2 r _ => memberSafeAux_classify r s2) s

/-- C7: applying the sink-call sequence of any sequence of group records to
the empty inventory graph twice yields the same graph as applying it once —
same group set, hosts, parent-child edges, memberships and variable map. -/
theorem group_records_idempotent :
    ∀ resources : List TerraformModuleResource,
      applyOps (resources.flatMap _add_group)
          (applyOps (resources.flatMap _add_group) emptyInventoryGraph)
        = applyOps (resources.flatMap _add_group) emptyInventoryGraph :=
  fun resources => applyOps_idem (resources.flatMap _add_group) emptyInventoryGraph

/-- C8: a warning-level workspace listing at any path is absorbed — the run
is identical to one where listing succeeded with the default context
(`current="default"`, empty known set), so the path's processing continues. -/
theorem workspace_list_warning_defaults :
    ∀ (workspace state_file : String) (flag : Bool) (paths : List (String × PathEnv)),
      parse workspace state_file flag (paths.map defaultizePath)
        = parse workspace state_file flag paths := by
  intro ws sf flag paths
  simp only [parse, runPaths_defaultize]

/-- C9: a path issues a `workspace select` command exactly when the
requested workspace passes validation (is known or current) and differs
from the currently active one; when they coincide no select is issued. -/
theorem select_issued_iff_needed :
    ∀ (workspace state_file path : String) (env : PathEnv),
      (processPath workspace state_file path env).cmds.filter isSelectCmd
        = match env.workspace_list with
          | ListOutcome.hardError _ => []
          | wl =>
            if ((effectiveCtx wl).all.contains workspace
                  || workspace == (effectiveCtx wl).current)
                && (effectiveCtx wl).current != workspace
            then [TfCommand.select path workspace] else [] := by
  intro ws sf path env
  cases hwl : env.workspace_list with
  | hardError m => simp [processPath, hwl, PathStep.cmds, isSelectCmd]
  | ok ctx =>
    simp only [processPath, hwl]
    exact processPathCore_selects ws sf path (effectiveCtx (ListOutcome.ok ctx)) env
  | warning m =>
    simp only [processPath, hwl]
    exact processPathCore_selects ws sf path (effectiveCtx (ListOutcome.warning m)) env
